import Mathlib

/-!
Shallow embedding of the pbsql SQL statement generator (src/main.go) and a
verification of the specification's claims about it.

The four public builders walk a record's field metadata (struct tags read by
reflection) and current values, assemble SQL text with named `:col`
placeholders, and hand the text to the external `sqlx.Named` resolver.  The
resolver is an out-of-scope collaborator (§4.6 of the spec), so each builder
is modelled here as the function from inputs to the SQL text it passes to the
resolver; `Option` models the panic that `getDefault` can raise.  The model
covers records whose fields are exported (for such fields `CanInterface()`
is always true, as it is for every protobuf-generated record this library
is written for).
-/

namespace Pbsql

/-- A Go value as the builders see it through `reflect` and `interface{}`.
`intV t n` is a value of an integer type named `t` (for example "int32" or
"int64"); `floatV t q` a value of a floating-point type named `t` (floats are
modelled as rationals, so IEEE `NaN` and `-0.0` are outside the model);
`stringV` a `string`; `boolV` a `bool`; and `otherV t` a value of any other
named type `t`.  A value read from a struct field is never the nil
interface, which is the only thing `notDefault` tests for unrecognized
types. -/
inductive GoValue where
  | intV (typeName : String) (n : Int)
  | floatV (typeName : String) (q : ℚ)
  | stringV (s : String)
  | boolV (b : Bool)
  | otherV (typeName : String)
deriving DecidableEq

/-- The result of `valField.Type().Name()` for a modelled value. -/
def GoValue.goTypeName : GoValue → String
  | .intV t _ => t
  | .floatV t _ => t
  | .stringV _ => "string"
  | .boolV _ => "bool"
  | .otherV t => t

/-- One struct field as the builders see it: the Go field identifier
(`typeField.Name`), the `db`, `primary_key` and `nullable` struct tags
(`Tag.Get` yields `""` when a tag is absent), and the field's current
value. -/
structure Field where
  name : String
  dbTag : String
  primaryKeyTag : String
  nullableTag : String
  value : GoValue
deriving DecidableEq

/-- `typeField.Tag.Get("primary_key") != ""`, the primary-key test used by
all builders. -/
def Field.isPrimaryKey (f : Field) : Bool := f.primaryKeyTag ≠ ""

/-- The Go type name of the field's current value. -/
def Field.typeName (f : Field) : String := f.value.goTypeName

/-- A record instance: its fields in declaration order. -/
structure Record where
  fields : List Field
deriving DecidableEq

/-- `notDefault` (src/main.go:160): whether a value differs from its type's
uninitialized default.  The switch is on the type *name*: only the exact
names "int32", "float64" and "string" are recognized; every other type
(including other integer and float types) falls to the default branch
`fieldVal != nil`, which is always true for a value read from a struct
field. -/
def notDefault (v : GoValue) : Bool :=
  match v with
  | .intV t n => if t = "int32" then n ≠ 0 else true
  | .floatV t q => if t = "float64" then q ≠ 0 else true
  | .stringV s => s ≠ ""
  | .boolV _ => true
  | .otherV _ => true

/-- The integer type names enumerated by `getDefault`'s first case
(src/main.go:176). -/
def integerTypeNames : List String :=
  ["byte", "rune", "uint", "int", "uint8", "uint16", "uint32", "uint64",
   "int8", "int16", "int32", "int64"]

/-- `getDefault` (src/main.go:174): the SQL literal substituted for NULL in
nullable projections.  `none` models the `panic` of the default branch
(abnormal termination, not a normal error result). -/
def getDefault (typeName : String) : Option String :=
  if typeName ∈ integerTypeNames then some "0"
  else if typeName = "float32" ∨ typeName = "float64" then some "0.0"
  else if typeName = "bool" then some "0"
  else if typeName = "string" then some "''"
  else none

/-- Whether the character list `s` begins with `pat`. -/
def startsWithL : List Char → List Char → Bool
  | [], _ => true
  | _ :: _, [] => false
  | p :: ps, c :: cs => p = c && startsWithL ps cs

/-- `strings.Replace(s, old, new, 1)` over character lists: replace the
leftmost occurrence of `pat` by `rep`, if any. -/
def replaceFirstL (pat rep : List Char) : List Char → List Char
  | [] => if startsWithL pat [] then rep else []
  | c :: cs =>
    if startsWithL pat (c :: cs) then rep ++ (c :: cs).drop pat.length
    else c :: replaceFirstL pat rep cs

/-- `strings.Replace(s, pat, rep, 1)` at the `String` level. -/
def replaceFirstS (s pat rep : String) : String := ⟨replaceFirstL pat.data rep.data s.data⟩

/-- `strings.ReplaceAll(s, "(, ", "(")` — the only `ReplaceAll` in the
source (BuildCreateQuery, src/main.go:40) — specialized to its fixed
pattern: scan left to right, rewrite every occurrence of `(, ` to `(`, and
continue scanning after the replacement. -/
def replaceAllParen : List Char → List Char
  | '(' :: ',' :: ' ' :: rest => '(' :: replaceAllParen rest
  | c :: rest => c :: replaceAllParen rest
  | [] => []

/-- Concatenation of a list of strings, in order. -/
def sjoin : List String → String
  | [] => ""
  | s :: l => s ++ sjoin l

/-- Comma-space-separated rendering of a list of strings, the shape of a
cleaned-up SQL item list. -/
def sepList : List String → String
  | [] => ""
  | s :: l => s ++ sjoin (l.map (fun x => ", " ++ x))

/-- The Create inclusion condition (src/main.go:29): non-default current
value, non-empty `db` tag, not primary-key-tagged. -/
def createIncl (f : Field) : Prop := notDefault f.value ∧ f.dbTag ≠ "" ∧ ¬ f.isPrimaryKey

instance (f : Field) : Decidable (createIncl f) := by unfold createIncl; infer_instance

/-- The column-list accumulator of BuildCreateQuery's field loop
(src/main.go:22-37) started at field index `i`: an included field writes
`", "` first unless its index is 0, then its column name. -/
def createCols : Nat → List Field → String
  | _, [] => ""
  | i, f :: fs =>
    (if createIncl f then (if i ≠ 0 then ", " else "") ++ f.dbTag else "")
      ++ createCols (i + 1) fs

/-- The VALUES-list accumulator of the same loop: `:` placeholders, same
inclusion condition and same comma handling. -/
def createVals : Nat → List Field → String
  | _, [] => ""
  | i, f :: fs =>
    (if createIncl f then (if i ≠ 0 then ", " else "") ++ ":" ++ f.dbTag else "")
      ++ createVals (i + 1) fs

/-- BuildCreateQuery (src/main.go:15): the INSERT text handed to the
placeholder resolver. -/
def BuildCreateQuery (target : String) (source : Record) : String :=
  ⟨replaceAllParen ("INSERT INTO " ++ target ++ " (" ++ createCols 0 source.fields
      ++ ") VALUES (" ++ createVals 0 source.fields ++ ")").data⟩

/-- The primary-key predicate loop of BuildDeleteQuery (src/main.go:66-74):
the first `primary_key`-tagged field wins (`break`); fields after it are
never reached. -/
def firstPkClause : List Field → String
  | [] => ""
  | f :: fs => if f.isPrimaryKey then f.dbTag ++ " = :" ++ f.dbTag else firstPkClause fs

/-- BuildDeleteQuery (src/main.go:53).  `t.FieldByName("IsActive")` is
modelled by `find?` on the Go field identifier; the `db` tag of that field
is not inspected before the soft-delete branch is chosen. -/
def BuildDeleteQuery (target : String) (source : Record) : String :=
  (match source.fields.find? (fun f => f.name = "IsActive") with
    | some isActive =>
        "UPDATE " ++ target ++ " SET " ++ isActive.dbTag ++ " = :" ++ isActive.dbTag ++ " WHERE "
    | none => "DELETE FROM " ++ target ++ " WHERE ")
  ++ firstPkClause source.fields

/-- One field's contribution to BuildReadQuery's projection
(src/main.go:105-109).  A `nullable`-tagged field is wrapped in the
null-coalescing form whether or not it has a column name; `none` propagates
the panic of `getDefault`. -/
def readProjItem (nullHandler : String) (f : Field) : Option String :=
  if f.nullableTag ≠ "" then
    (getDefault f.typeName).map (fun d =>
      nullHandler ++ f.dbTag ++ ", " ++ d ++ ") as " ++ f.dbTag ++ ", ")
  else if f.dbTag ≠ "" then some (f.dbTag ++ ", ")
  else some ""

/-- The projection accumulator of BuildReadQuery's field loop. -/
def readProj (nullHandler : String) : List Field → Option String
  | [] => some ""
  | f :: fs =>
    match readProjItem nullHandler f, readProj nullHandler fs with
    | some a, some b => some (a ++ b)
    | _, _ => none

/-- One field's contribution to BuildReadQuery's predicate
(src/main.go:111-118): string-kind values filter with LIKE, every other
kind with equality. -/
def readPredIncl (f : Field) : Prop := notDefault f.value ∧ f.dbTag ≠ ""

instance (f : Field) : Decidable (readPredIncl f) := by unfold readPredIncl; infer_instance

def readPredItem (f : Field) : String :=
  if readPredIncl f then
    " AND " ++ f.dbTag ++ (if f.typeName = "string" then " LIKE :" else " = :") ++ f.dbTag
  else ""

/-- The predicate accumulator of the same loop. -/
def readPred : List Field → String
  | [] => ""
  | f :: fs => readPredItem f ++ readPred fs

/-- BuildReadQuery (src/main.go:84).  `driver` is the value of the
`GRPC_SQL_DRIVER` environment variable (process configuration, passed here
as an argument); `none` models the panic raised by `getDefault` on a
nullable field of unsupported type. -/
def BuildReadQuery (driver target : String) (source : Record) : Option String :=
  let nullHandler := if driver = "pgsql" then "coalesce(" else "ifnull("
  match readProj nullHandler source.fields with
  | none => none
  | some fields =>
    some (replaceFirstS ("SELECT " ++ fields ++ "FROM " ++ target ++ " WHERE true"
      ++ readPred source.fields) ", FROM" " FROM")

/-- The SET-clause accumulator of BuildUpdateQuery's field loop
(src/main.go:138-151): a non-primary-key field with a `db` tag whose Go
field identifier is a key of the mask appends `<col> = :<col>,` — a comma
with no following space. -/
def updSetIncl (fieldMask : List String) (f : Field) : Prop :=
  f.dbTag ≠ "" ∧ ¬ f.isPrimaryKey ∧ fieldMask.contains f.name

instance (fieldMask : List String) (f : Field) : Decidable (updSetIncl fieldMask f) := by
  unfold updSetIncl; infer_instance

def updSet (fieldMask : List String) : List Field → String
  | [] => ""
  | f :: fs =>
    (if updSetIncl fieldMask f then f.dbTag ++ " = :" ++ f.dbTag ++ "," else "")
      ++ updSet fieldMask fs

/-- The predicate accumulator of the same loop: every `primary_key`-tagged
field with a `db` tag appends a full `WHERE <col> = :<col>` clause — there
is no `break`, so later primary-key fields also contribute. -/
def updPkIncl (f : Field) : Prop := f.dbTag ≠ "" ∧ f.isPrimaryKey

instance (f : Field) : Decidable (updPkIncl f) := by unfold updPkIncl; infer_instance

def updWhere : List Field → String
  | [] => ""
  | f :: fs =>
    (if updPkIncl f then "WHERE " ++ f.dbTag ++ " = :" ++ f.dbTag else "")
      ++ updWhere fs

/-- BuildUpdateQuery (src/main.go:130).  The `map[string]int32` mask is
modelled by its list of keys; the loop writes both accumulators in field
order and the final text is SET-part then predicate, run through
`strings.Replace(s, ", WHERE", " WHERE", 1)`. -/
def BuildUpdateQuery (target : String) (source : Record) (fieldMask : List String) : String :=
  replaceFirstS ("UPDATE " ++ target ++ " SET " ++ updSet fieldMask source.fields
    ++ updWhere source.fields) ", WHERE" " WHERE"

/-! ### Basic string and list lemmas -/

theorem sdata_append (a b : String) : (a ++ b).data = a.data ++ b.data := by
  cases a; cases b; rfl

theorem sext {a b : String} (h : a.data = b.data) : a = b := by
  cases a; cases b; exact congrArg String.mk h

theorem sempty_append (s : String) : "" ++ s = s := by
  apply sext; rw [sdata_append]; rfl

theorem sappend_empty (s : String) : s ++ "" = s := by
  apply sext; rw [sdata_append]; simp

theorem sappend_assoc (a b c : String) : a ++ b ++ c = a ++ (b ++ c) := by
  apply sext; simp [sdata_append]

theorem sne_iff_data {s : String} : s ≠ "" ↔ s.data ≠ [] := by
  cases s with
  | mk l =>
    constructor
    · intro h hl
      exact h (congrArg String.mk hl)
    · intro h hs
      apply h
      have h2 := congrArg String.data hs
      simpa using h2

/-! ### Pattern-scan lemmas for the comma cleanups -/

theorem startsWithL_append_self (p x : List Char) : startsWithL p (p ++ x) = true := by
  induction p with
  | nil => rfl
  | cons a ps ih => simp [startsWithL, ih]

theorem rf_at_match (pat rep x : List Char) :
    replaceFirstL pat rep (pat ++ x) = rep ++ x := by
  cases pat with
  | nil =>
    cases x with
    | nil => simp [replaceFirstL, startsWithL]
    | cons c cs => simp [replaceFirstL, startsWithL]
  | cons p ps =>
    have hs : startsWithL (p :: ps) (p :: (ps ++ x)) = true := by
      simpa using startsWithL_append_self (p :: ps) x
    simp [replaceFirstL, hs, List.drop_left]

theorem rf_pass {pat rep A B : List Char}
    (h : ∀ s, s ≠ [] → (∃ u, A = u ++ s) → startsWithL pat (s ++ B) = false) :
    replaceFirstL pat rep (A ++ B) = A ++ replaceFirstL pat rep B := by
  induction A with
  | nil => simp
  | cons a A2 ih =>
    have h0 : startsWithL pat (a :: (A2 ++ B)) = false := by
      simpa using h (a :: A2) (by simp) ⟨[], rfl⟩
    have ih2 : replaceFirstL pat rep (A2 ++ B) = A2 ++ replaceFirstL pat rep B := by
      apply ih
      intro s hs hu
      rcases hu with ⟨u, hu⟩
      exact h s hs ⟨a :: u, by rw [hu]; rfl⟩
    rw [List.cons_append]
    simp only [replaceFirstL, h0, Bool.false_eq_true, if_false]
    rw [ih2, List.cons_append]

/-- Whether a comma immediately followed by a space occurs nowhere in `s`. -/
def okCS : List Char → Bool
  | [] => true
  | [_] => true
  | a :: b :: cs => if a = ',' ∧ b = ' ' then false else okCS (b :: cs)

theorem okCS_cons_of {a : Char} {s : List Char} (h1 : a = ',' → s.head? ≠ some ' ')
    (h2 : okCS s = true) : okCS (a :: s) = true := by
  cases s with
  | nil => rfl
  | cons b t =>
    have hb : ¬ (a = ',' ∧ b = ' ') := by
      rintro ⟨ha, hbs⟩
      exact h1 ha (by simp [hbs])
    simpa [okCS, hb] using h2

theorem okCS_tail {a : Char} {s : List Char} (h : okCS (a :: s) = true) : okCS s = true := by
  cases s with
  | nil => rfl
  | cons b t =>
    by_cases hb : a = ',' ∧ b = ' '
    · simp [okCS, hb] at h
    · simpa [okCS, hb] using h

theorem okCS_head {a b : Char} {s : List Char} (h : okCS (a :: b :: s) = true) :
    ¬ (a = ',' ∧ b = ' ') := by
  intro hb
  simp [okCS, hb] at h

theorem okCS_append {xs ys : List Char} (hx : okCS xs = true) (hy : okCS ys = true)
    (hb : xs.getLast? = some ',' → ys.head? ≠ some ' ') : okCS (xs ++ ys) = true := by
  induction xs with
  | nil => simpa using hy
  | cons a xs2 ih =>
    rw [List.cons_append]
    apply okCS_cons_of
    · intro ha
      cases xs2 with
      | nil =>
        simp only [List.nil_append]
        exact hb (by simp [ha])
      | cons b t =>
        have hnb := okCS_head hx
        have hbne : b ≠ ' ' := fun hbs => hnb ⟨ha, hbs⟩
        simp [hbne]
    · apply ih (okCS_tail hx)
      intro hl
      apply hb
      cases xs2 with
      | nil => exact absurd hl (by simp)
      | cons b t => rw [List.getLast?_cons_cons]; exact hl

theorem okCS_of_not_mem {s : List Char} (h : ',' ∉ s) : okCS s = true := by
  induction s with
  | nil => rfl
  | cons a t ih =>
    apply okCS_cons_of
    · intro ha
      exact absurd (ha ▸ List.mem_cons_self a t) h
    · exact ih (fun hm => h (List.mem_cons_of_mem _ hm))

theorem rf_comma_space {p rep s : List Char} (h : okCS s = true) :
    replaceFirstL (',' :: ' ' :: p) rep s = s := by
  induction s with
  | nil => simp [replaceFirstL, startsWithL]
  | cons c cs ih =>
    have hsw : startsWithL (',' :: ' ' :: p) (c :: cs) = false := by
      by_cases hc : (',' : Char) = c
      · cases cs with
        | nil => simp [startsWithL]
        | cons b t =>
          have hnb := okCS_head h
          have hbne : (' ' : Char) ≠ b := by
            intro hbs
            exact hnb ⟨hc.symm, hbs.symm⟩
          simp [startsWithL, hbne]
      · simp [startsWithL, hc]
    simp only [replaceFirstL, hsw, Bool.false_eq_true, if_false]
    rw [ih (okCS_tail h)]

theorem raP_consume (ys : List Char) :
    replaceAllParen ('(' :: ',' :: ' ' :: ys) = '(' :: replaceAllParen ys := by
  simp [replaceAllParen]

theorem raP_cons_ne {c : Char} (cs : List Char) (h : c ≠ '(') :
    replaceAllParen (c :: cs) = c :: replaceAllParen cs := by
  rw [replaceAllParen.eq_def]
  split
  · rename_i heq
    injection heq with h1 h2
    exact absurd h1 h
  · rename_i heq
    injection heq with h1 h2
    subst h1; subst h2
    rfl
  · rename_i heq
    exact absurd heq (by simp)

theorem raP_paren (ys : List Char) (h : startsWithL [',', ' '] ys = false) :
    replaceAllParen ('(' :: ys) = '(' :: replaceAllParen ys := by
  rw [replaceAllParen.eq_def]
  split
  · rename_i heq
    injection heq with h1 h2
    subst h2
    simp [startsWithL] at h
  · rename_i heq
    injection heq with h1 h2
    subst h1; subst h2
    rfl
  · rename_i heq
    exact absurd heq (by simp)

theorem ra_append {xs : List Char} (ys : List Char) (h : '(' ∉ xs) :
    replaceAllParen (xs ++ ys) = xs ++ replaceAllParen ys := by
  induction xs with
  | nil => simp
  | cons a t ih =>
    have ha : a ≠ '(' := fun hp => h (hp ▸ List.mem_cons_self a t)
    rw [List.cons_append, raP_cons_ne _ ha, ih (fun hm => h (List.mem_cons_of_mem _ hm)),
      List.cons_append]

theorem ra_not_mem {s : List Char} (h : '(' ∉ s) : replaceAllParen s = s := by
  have h2 := ra_append [] h
  simpa [replaceAllParen] using h2

/-! ### Identifier safety -/

/-- Characters allowed in a modelled SQL identifier: ASCII lowercase
letters, digits, underscore and dot (the shapes used by the repository's
own records, such as `geolocation_lat` or `test_table.date`). -/
def safeChar (c : Char) : Bool := c.isLower || c.isDigit || c = '_' || c = '.'

/-- All characters of `s` are safe identifier characters (vacuously true
for the empty string). -/
def safeName (s : String) : Prop := ∀ c ∈ s.data, safeChar c = true

instance (s : String) : Decidable (safeName s) := by unfold safeName; infer_instance

theorem safeName_not_mem {s : String} (hs : safeName s) {c : Char}
    (hc : safeChar c = false) : c ∉ s.data := by
  intro hm
  have h2 := hs c hm
  rw [h2] at hc
  simp at hc

theorem not_mem_sappend {c : Char} {a b : String} (ha : c ∉ a.data) (hb : c ∉ b.data) :
    c ∉ (a ++ b).data := by
  rw [sdata_append]
  simp [ha, hb]

/-! ### Closed forms of the loop accumulators -/

theorem sjoin_cons (s : String) (l : List String) : sjoin (s :: l) = s ++ sjoin l := rfl

theorem sepList_cons (s : String) (l : List String) :
    sepList (s :: l) = s ++ sjoin (l.map (fun x => ", " ++ x)) := rfl

theorem sjoin_map_comma (xs : List String) :
    sjoin (xs.map (fun x => ", " ++ x)) = if xs = [] then "" else ", " ++ sepList xs := by
  cases xs with
  | nil => rfl
  | cons x r =>
    simp only [List.map_cons, sjoin_cons, sepList_cons, if_neg (List.cons_ne_nil x r)]
    rw [sappend_assoc]

/-- Column names included by BuildCreateQuery, in declaration order. -/
def createTags (fs : List Field) : List String :=
  (fs.filter (fun f => decide (createIncl f))).map (fun f => f.dbTag)

/-- Placeholders included by BuildCreateQuery, in declaration order. -/
def createVTags (fs : List Field) : List String :=
  (fs.filter (fun f => decide (createIncl f))).map (fun f => ":" ++ f.dbTag)

theorem createTags_cons_pos {f : Field} (fs : List Field) (h : createIncl f) :
    createTags (f :: fs) = f.dbTag :: createTags fs := by
  simp [createTags, List.filter_cons, h]

theorem createTags_cons_neg {f : Field} (fs : List Field) (h : ¬ createIncl f) :
    createTags (f :: fs) = createTags fs := by
  simp [createTags, List.filter_cons, h]

theorem createVTags_cons_pos {f : Field} (fs : List Field) (h : createIncl f) :
    createVTags (f :: fs) = (":" ++ f.dbTag) :: createVTags fs := by
  simp [createVTags, List.filter_cons, h]

theorem createVTags_cons_neg {f : Field} (fs : List Field) (h : ¬ createIncl f) :
    createVTags (f :: fs) = createVTags fs := by
  simp [createVTags, List.filter_cons, h]

theorem createCols_pos (fs : List Field) (i : Nat) (hi : i ≠ 0) :
    createCols i fs = sjoin ((createTags fs).map (fun x => ", " ++ x)) := by
  induction fs generalizing i with
  | nil => simp [createCols, createTags, sjoin]
  | cons f t ih =>
    by_cases hf : createIncl f
    · rw [createCols, if_pos hf, if_pos hi, createTags_cons_pos t hf, List.map_cons,
        sjoin_cons, ih (i + 1) (Nat.succ_ne_zero i)]
    · rw [createCols, if_neg hf, sempty_append, createTags_cons_neg t hf,
        ih (i + 1) (Nat.succ_ne_zero i)]

theorem createVals_pos (fs : List Field) (i : Nat) (hi : i ≠ 0) :
    createVals i fs = sjoin ((createVTags fs).map (fun x => ", " ++ x)) := by
  induction fs generalizing i with
  | nil => simp [createVals, createVTags, sjoin]
  | cons f t ih =>
    by_cases hf : createIncl f
    · rw [createVals, if_pos hf, if_pos hi, createVTags_cons_pos t hf, List.map_cons,
        sjoin_cons, ih (i + 1) (Nat.succ_ne_zero i)]
      apply sext
      simp [sdata_append]
    · rw [createVals, if_neg hf, sempty_append, createVTags_cons_neg t hf,
        ih (i + 1) (Nat.succ_ne_zero i)]

theorem createTags_eq_nil_iff (fs : List Field) :
    createTags fs = [] ↔ createVTags fs = [] := by
  simp [createTags, createVTags]

/-- BuildCreateQuery's two accumulators, started at index 0, either both
render as a plain separated list (the first field of the record was
included) or both carry the leading `", "` artifact that the final
`ReplaceAll` removes. -/
theorem createCols0 (fs : List Field) :
    (createCols 0 fs = sepList (createTags fs) ∧ createVals 0 fs = sepList (createVTags fs))
    ∨ (createTags fs ≠ [] ∧ createCols 0 fs = ", " ++ sepList (createTags fs)
        ∧ createVals 0 fs = ", " ++ sepList (createVTags fs)) := by
  cases fs with
  | nil => left; exact ⟨rfl, rfl⟩
  | cons f t =>
    by_cases hf : createIncl f
    · left
      constructor
      · rw [createCols, if_pos hf, if_neg (by simp : ¬ (0 : Nat) ≠ 0), sempty_append,
          createTags_cons_pos t hf, sepList_cons, createCols_pos t 1 one_ne_zero]
      · rw [createVals, if_pos hf, if_neg (by simp : ¬ (0 : Nat) ≠ 0), sempty_append,
          createVTags_cons_pos t hf, sepList_cons, createVals_pos t 1 one_ne_zero]
    · have hc : createCols 0 (f :: t) = sjoin ((createTags t).map (fun x => ", " ++ x)) := by
        rw [createCols, if_neg hf, sempty_append, createCols_pos t 1 one_ne_zero]
      have hv : createVals 0 (f :: t) = sjoin ((createVTags t).map (fun x => ", " ++ x)) := by
        rw [createVals, if_neg hf, sempty_append, createVals_pos t 1 one_ne_zero]
      rw [sjoin_map_comma] at hc
      rw [sjoin_map_comma] at hv
      by_cases ht : createTags t = []
      · left
        rw [createTags_cons_neg t hf, createVTags_cons_neg t hf]
        rw [if_pos ht] at hc
        rw [if_pos ((createTags_eq_nil_iff t).mp ht)] at hv
        exact ⟨by rw [hc, ht]; rfl, by rw [hv, (createTags_eq_nil_iff t).mp ht]; rfl⟩
      · right
        rw [createTags_cons_neg t hf, createVTags_cons_neg t hf]
        rw [if_neg ht] at hc
        rw [if_neg (fun hv2 => ht ((createTags_eq_nil_iff t).mpr hv2))] at hv
        exact ⟨ht, hc, hv⟩

theorem updSet_eq (fieldMask : List String) (fs : List Field) :
    updSet fieldMask fs = sjoin ((fs.filter (fun f => decide (updSetIncl fieldMask f))).map
      (fun f => f.dbTag ++ " = :" ++ f.dbTag ++ ",")) := by
  induction fs with
  | nil => rfl
  | cons f t ih =>
    by_cases hf : updSetIncl fieldMask f
    · rw [updSet, if_pos hf, ih]
      simp [List.filter_cons, hf, sjoin_cons]
    · rw [updSet, if_neg hf, sempty_append, ih]
      simp [List.filter_cons, hf]

theorem updWhere_eq (fs : List Field) :
    updWhere fs = sjoin ((fs.filter (fun f => decide (updPkIncl f))).map
      (fun f => "WHERE " ++ f.dbTag ++ " = :" ++ f.dbTag)) := by
  induction fs with
  | nil => rfl
  | cons f t ih =>
    by_cases hf : updPkIncl f
    · rw [updWhere, if_pos hf, ih]
      simp [List.filter_cons, hf, sjoin_cons]
    · rw [updWhere, if_neg hf, sempty_append, ih]
      simp [List.filter_cons, hf]

theorem readPred_eq (fs : List Field) :
    readPred fs = sjoin ((fs.filter (fun f => decide (readPredIncl f))).map
      (fun f => " AND " ++ f.dbTag
        ++ (if f.typeName = "string" then " LIKE :" else " = :") ++ f.dbTag)) := by
  induction fs with
  | nil => rfl
  | cons f t ih =>
    by_cases hf : readPredIncl f
    · rw [readPred, readPredItem, if_pos hf, ih]
      simp [List.filter_cons, hf, sjoin_cons]
    · rw [readPred, readPredItem, if_neg hf, sempty_append, ih]
      simp [List.filter_cons, hf]

theorem ra_blocks_plain (A y1 y2 : List Char)
    (hA : '(' ∉ A) (h1 : '(' ∉ y1) (h2 : '(' ∉ y2)
    (hs1 : startsWithL [',', ' '] (y1 ++ '(' :: y2) = false)
    (hs2 : startsWithL [',', ' '] y2 = false) :
    replaceAllParen (A ++ '(' :: (y1 ++ '(' :: y2)) = A ++ '(' :: (y1 ++ '(' :: y2) := by
  rw [ra_append _ hA, raP_paren _ hs1, ra_append _ h1, raP_paren _ hs2, ra_not_mem h2]

theorem ra_blocks_commas (A y1 y2 : List Char)
    (hA : '(' ∉ A) (h1 : '(' ∉ y1) (h2 : '(' ∉ y2) :
    replaceAllParen (A ++ '(' :: ',' :: ' ' :: (y1 ++ '(' :: ',' :: ' ' :: y2))
      = A ++ '(' :: (y1 ++ '(' :: y2) := by
  rw [ra_append _ hA, raP_consume, ra_append _ h1, raP_consume, ra_not_mem h2]

theorem startsWithL_cons_ne {a c : Char} (ps cs : List Char) (h : a ≠ c) :
    startsWithL (a :: ps) (c :: cs) = false := by
  simp [startsWithL, h]

theorem sjoin_not_mem {c : Char} {l : List String} (h : ∀ x ∈ l, c ∉ x.data) :
    c ∉ (sjoin l).data := by
  induction l with
  | nil => exact List.not_mem_nil c
  | cons x t ih =>
    rw [sjoin_cons]
    exact not_mem_sappend (h x (by simp)) (ih (fun y hy => h y (by simp [hy])))

theorem sepList_not_mem {c : Char} {l : List String} (h : ∀ x ∈ l, c ∉ x.data)
    (hc : c ∉ (", " : String).data) : c ∉ (sepList l).data := by
  cases l with
  | nil => exact List.not_mem_nil c
  | cons x t =>
    rw [sepList_cons]
    apply not_mem_sappend (h x (by simp))
    apply sjoin_not_mem
    intro z hz
    rcases List.mem_map.mp hz with ⟨y, hy, rfl⟩
    exact not_mem_sappend hc (h y (by simp [hy]))

theorem createTags_facts {fs : List Field} (hf : ∀ f ∈ fs, safeName f.dbTag) :
    ∀ x ∈ createTags fs, x ≠ "" ∧ safeName x := by
  intro x hx
  unfold createTags at hx
  rcases List.mem_map.mp hx with ⟨f, hfmem, rfl⟩
  have h2 := List.mem_filter.mp hfmem
  have h3 : createIncl f := of_decide_eq_true h2.2
  exact ⟨h3.2.1, hf f h2.1⟩

theorem createVTags_shape {fs : List Field} (hf : ∀ f ∈ fs, safeName f.dbTag) :
    ∀ x ∈ createVTags fs, ∃ y, x = ":" ++ y ∧ safeName y := by
  intro x hx
  unfold createVTags at hx
  rcases List.mem_map.mp hx with ⟨f, hfmem, rfl⟩
  have h2 := List.mem_filter.mp hfmem
  exact ⟨f.dbTag, rfl, hf f h2.1⟩

/-- BuildCreateQuery's output in closed form (§4.2): under sane identifier
characters, the leading-comma artifacts of both loop accumulators are
cleaned up into plain comma-separated lists. -/
theorem create_master (t : String) (r : Record)
    (ht : '(' ∉ t.data) (hf : ∀ f ∈ r.fields, safeName f.dbTag) :
    BuildCreateQuery t r = "INSERT INTO " ++ t ++ " (" ++ sepList (createTags r.fields)
      ++ ") VALUES (" ++ sepList (createVTags r.fields) ++ ")" := by
  have hT := createTags_facts hf
  have hV := createVTags_shape hf
  have hA : '(' ∉ ("INSERT INTO " ++ t ++ " ").data :=
    not_mem_sappend (not_mem_sappend (by decide) ht) (by decide)
  have hTags : ∀ x ∈ createTags r.fields, '(' ∉ x.data := fun x hx =>
    safeName_not_mem (hT x hx).2 (by decide)
  have hVTags : ∀ x ∈ createVTags r.fields, '(' ∉ x.data := by
    intro x hx
    rcases hV x hx with ⟨y, rfl, hy⟩
    exact not_mem_sappend (by decide) (safeName_not_mem hy (by decide))
  have h1 : '(' ∉ ((sepList (createTags r.fields)) ++ ") VALUES ").data :=
    not_mem_sappend (sepList_not_mem hTags (by decide)) (by decide)
  have h2 : '(' ∉ ((sepList (createVTags r.fields)) ++ ")").data :=
    not_mem_sappend (sepList_not_mem hVTags (by decide)) (by decide)
  have hs2 : startsWithL [',', ' ']
      (((sepList (createVTags r.fields)) ++ ")").data) = false := by
    cases hV2 : createVTags r.fields with
    | nil => decide
    | cons x rest =>
      have hx : x ∈ createVTags r.fields := by rw [hV2]; simp
      rcases hV x hx with ⟨y, hxy, hy⟩
      have hxdata : x.data = ':' :: y.data := by rw [hxy, sdata_append]; rfl
      rw [sepList_cons, sdata_append, sdata_append, hxdata]
      simp only [List.cons_append, List.append_assoc]
      exact startsWithL_cons_ne _ _ (by decide)
  have hs1 : startsWithL [',', ' ']
      (((sepList (createTags r.fields)) ++ ") VALUES ").data ++ '('
        :: ((sepList (createVTags r.fields)) ++ ")").data) = false := by
    cases hT2 : createTags r.fields with
    | nil =>
      have hVnil : createVTags r.fields = [] := (createTags_eq_nil_iff r.fields).mp hT2
      rw [hVnil]
      decide
    | cons x rest =>
      have hx : x ∈ createTags r.fields := by rw [hT2]; simp
      have hxf := hT x hx
      rcases List.exists_cons_of_ne_nil (sne_iff_data.mp hxf.1) with ⟨c, cs, hcc⟩
      have hc : safeChar c = true := hxf.2 c (by rw [hcc]; simp)
      have hcne : (',' : Char) ≠ c := by
        intro hcc2
        rw [← hcc2] at hc
        simp [safeChar] at hc
      rw [sepList_cons, sdata_append, sdata_append, hcc]
      simp only [List.cons_append, List.append_assoc]
      exact startsWithL_cons_ne _ _ hcne
  have e1 : (" (" : String).data = [' ', '('] := rfl
  have e2 : (" " : String).data = [' '] := rfl
  have e3 : (") VALUES (" : String).data
      = [')', ' ', 'V', 'A', 'L', 'U', 'E', 'S', ' ', '('] := rfl
  have e4 : (") VALUES " : String).data = [')', ' ', 'V', 'A', 'L', 'U', 'E', 'S', ' '] := rfl
  have e5 : ((", ") : String).data = [',', ' '] := rfl
  rcases createCols0 r.fields with ⟨hc, hv⟩ | ⟨hne, hc, hv⟩
  · unfold BuildCreateQuery
    rw [hc, hv]
    apply sext
    show replaceAllParen (("INSERT INTO " ++ t ++ " (" ++ sepList (createTags r.fields)
      ++ ") VALUES (" ++ sepList (createVTags r.fields) ++ ")").data) = _
    have hshape : ("INSERT INTO " ++ t ++ " (" ++ sepList (createTags r.fields)
        ++ ") VALUES (" ++ sepList (createVTags r.fields) ++ ")").data
        = ("INSERT INTO " ++ t ++ " ").data
          ++ '(' :: (((sepList (createTags r.fields)) ++ ") VALUES ").data
            ++ '(' :: ((sepList (createVTags r.fields)) ++ ")").data) := by
      simp only [sdata_append, e1, e2, e3, e4, List.cons_append, List.append_assoc,
        List.nil_append]
    rw [hshape, ra_blocks_plain _ _ _ hA h1 h2 hs1 hs2]
  · unfold BuildCreateQuery
    rw [hc, hv]
    apply sext
    show replaceAllParen (("INSERT INTO " ++ t ++ " (" ++ (", " ++ sepList (createTags r.fields))
      ++ ") VALUES (" ++ (", " ++ sepList (createVTags r.fields)) ++ ")").data) = _
    have hshape : ("INSERT INTO " ++ t ++ " (" ++ (", " ++ sepList (createTags r.fields))
        ++ ") VALUES (" ++ (", " ++ sepList (createVTags r.fields)) ++ ")").data
        = ("INSERT INTO " ++ t ++ " ").data
          ++ '(' :: ',' :: ' ' :: (((sepList (createTags r.fields)) ++ ") VALUES ").data
            ++ '(' :: ',' :: ' ' :: ((sepList (createVTags r.fields)) ++ ")").data) := by
      simp only [sdata_append, e1, e2, e3, e4, e5, List.cons_append, List.append_assoc,
        List.nil_append]
    rw [hshape, ra_blocks_commas _ _ _ hA h1 h2]
    have hshape2 : ("INSERT INTO " ++ t ++ " (" ++ sepList (createTags r.fields)
        ++ ") VALUES (" ++ sepList (createVTags r.fields) ++ ")").data
        = ("INSERT INTO " ++ t ++ " ").data
          ++ '(' :: (((sepList (createTags r.fields)) ++ ") VALUES ").data
            ++ '(' :: ((sepList (createVTags r.fields)) ++ ")").data) := by
      simp only [sdata_append, e1, e2, e3, e4, List.cons_append, List.append_assoc,
        List.nil_append]
    rw [hshape2]

/-! ### The update builder's cleanup never fires -/

theorem getLast?_ne_of_not_mem {l : List Char} {a : Char} (h : a ∉ l) :
    l.getLast? ≠ some a := fun h2 => h (List.mem_of_mem_getLast? h2)

theorem okCS_snoc_comma {xs : List Char} (h : ',' ∉ xs) : okCS (xs ++ [',']) = true := by
  induction xs with
  | nil => rfl
  | cons a t ih =>
    rw [List.cons_append]
    apply okCS_cons_of
    · intro ha
      exact absurd (ha ▸ List.mem_cons_self a t) h
    · exact ih (fun hm => h (List.mem_cons_of_mem _ hm))

theorem updSet_okCS (mask : List String) (fs : List Field)
    (hf : ∀ f ∈ fs, safeName f.dbTag) :
    okCS ((updSet mask fs).data) = true ∧ (updSet mask fs).data.head? ≠ some ' ' := by
  induction fs with
  | nil => exact ⟨rfl, by simp [updSet]⟩
  | cons f t ih =>
    have iht := ih (fun g hg => hf g (List.mem_cons_of_mem f hg))
    by_cases hc : updSetIncl mask f
    · have hsafe := hf f (List.mem_cons_self f t)
      have hnc : ',' ∉ (f.dbTag ++ " = :" ++ f.dbTag).data :=
        not_mem_sappend (not_mem_sappend (safeName_not_mem hsafe (by decide)) (by decide))
          (safeName_not_mem hsafe (by decide))
      have hclause : (f.dbTag ++ " = :" ++ f.dbTag ++ ",").data
          = (f.dbTag ++ " = :" ++ f.dbTag).data ++ [','] := by
        rw [sdata_append]
      rcases List.exists_cons_of_ne_nil (sne_iff_data.mp hc.1) with ⟨c, cs, hcc⟩
      have hcsafe : safeChar c = true := hsafe c (by rw [hcc]; simp)
      have hcne : c ≠ ' ' := by
        intro h2
        rw [h2] at hcsafe
        simp [safeChar] at hcsafe
      rw [updSet, if_pos hc]
      constructor
      · rw [sdata_append]
        apply okCS_append _ iht.1 (fun _ => iht.2)
        rw [hclause]
        exact okCS_snoc_comma hnc
      · simp [sdata_append, hcc, hcne]
    · rw [updSet, if_neg hc, sempty_append]
      exact iht

theorem updWhere_no_comma (fs : List Field) (hf : ∀ f ∈ fs, safeName f.dbTag) :
    ',' ∉ (updWhere fs).data := by
  induction fs with
  | nil => exact List.not_mem_nil ','
  | cons f t ih =>
    have iht := ih (fun g hg => hf g (List.mem_cons_of_mem f hg))
    by_cases hc : updPkIncl f
    · have hsafe := hf f (List.mem_cons_self f t)
      rw [updWhere, if_pos hc, sdata_append]
      apply not_mem_sappend _ iht
      exact not_mem_sappend (not_mem_sappend (not_mem_sappend (by decide)
        (safeName_not_mem hsafe (by decide))) (by decide))
        (safeName_not_mem hsafe (by decide))
    · rw [updWhere, if_neg hc, sempty_append]
      exact iht

theorem updWhere_head (fs : List Field) : (updWhere fs).data.head? ≠ some ' ' := by
  induction fs with
  | nil => decide
  | cons f t ih =>
    by_cases hc : updPkIncl f
    · have hW : ("WHERE " : String).data = 'W' :: ['H', 'E', 'R', 'E', ' '] := rfl
      rw [updWhere, if_pos hc]
      simp [sdata_append, hW]
    · rw [updWhere, if_neg hc, sempty_append]
      exact ih

/-- BuildUpdateQuery's final `strings.Replace(s, ", WHERE", " WHERE", 1)` never
fires: SET clauses end in a comma with *no* following space, so under sane
identifier characters the assembled text contains no comma-space pair at
all. -/
theorem upd_master (t : String) (r : Record) (mask : List String)
    (ht : ',' ∉ t.data) (hf : ∀ f ∈ r.fields, safeName f.dbTag) :
    BuildUpdateQuery t r mask
      = "UPDATE " ++ t ++ " SET " ++ updSet mask r.fields ++ updWhere r.fields := by
  have hX1 : ',' ∉ ("UPDATE " ++ t ++ " SET ").data :=
    not_mem_sappend (not_mem_sappend (by decide) ht) (by decide)
  have hset := updSet_okCS mask r.fields hf
  have hok : okCS ((("UPDATE " ++ t ++ " SET ").data ++ (updSet mask r.fields).data)
      ++ (updWhere r.fields).data) = true := by
    apply okCS_append _ (okCS_of_not_mem (updWhere_no_comma r.fields hf))
      (fun _ => updWhere_head r.fields)
    exact okCS_append (okCS_of_not_mem hX1) hset.1
      (fun h2 => absurd h2 (getLast?_ne_of_not_mem hX1))
  have hshape : ("UPDATE " ++ t ++ " SET " ++ updSet mask r.fields
      ++ updWhere r.fields).data
      = (("UPDATE " ++ t ++ " SET ").data ++ (updSet mask r.fields).data)
        ++ (updWhere r.fields).data := by
    simp [sdata_append, List.append_assoc]
  have hpat : ((", WHERE") : String).data = ',' :: ' ' :: ['W', 'H', 'E', 'R', 'E'] := rfl
  unfold BuildUpdateQuery replaceFirstS
  apply sext
  show replaceFirstL ((", WHERE") : String).data ((" WHERE") : String).data _ = _
  rw [hpat, hshape]
  exact rf_comma_space hok

/-! ### The read builder -/

/-- The projection item in total form, valid when `getDefault` does not
panic on the field. -/
def readProjItemD (nullHandler : String) (f : Field) : String :=
  if f.nullableTag ≠ "" then
    nullHandler ++ f.dbTag ++ ", " ++ ((getDefault f.typeName).getD "") ++ ") as "
      ++ f.dbTag ++ ", "
  else if f.dbTag ≠ "" then f.dbTag ++ ", "
  else ""

theorem readProjItem_eq_some {nh : String} {f : Field}
    (h : f.nullableTag ≠ "" → (getDefault f.typeName).isSome) :
    readProjItem nh f = some (readProjItemD nh f) := by
  by_cases hn : f.nullableTag ≠ ""
  · rcases Option.isSome_iff_exists.mp (h hn) with ⟨d, hd⟩
    simp [readProjItem, readProjItemD, hn, hd]
  · by_cases hdb : f.dbTag ≠ "" <;> simp [readProjItem, readProjItemD, hn, hdb]

theorem readProj_eq_some (nh : String) (fs : List Field)
    (h : ∀ f ∈ fs, f.nullableTag ≠ "" → (getDefault f.typeName).isSome) :
    readProj nh fs = some (sjoin (fs.map (readProjItemD nh))) := by
  induction fs with
  | nil => rfl
  | cons f t ih =>
    have hf := @readProjItem_eq_some nh f (h f (List.mem_cons_self f t))
    have iht := ih (fun g hg hn => h g (List.mem_cons_of_mem f hg) hn)
    simp [readProj, hf, iht, sjoin_cons]

theorem readProj_none {nh : String} {fs : List Field} {f : Field} (hmem : f ∈ fs)
    (h0 : readProjItem nh f = none) : readProj nh fs = none := by
  induction fs with
  | nil => cases hmem
  | cons g t ih =>
    rcases List.mem_cons.mp hmem with rfl | hmem2
    · simp [readProj, h0]
    · cases hg : readProjItem nh g <;> simp [readProj, hg, ih hmem2]

theorem readProj_absorb {nh : String} (pre post : List Field) {f : Field}
    (hf : readProjItem nh f = some "") :
    readProj nh (pre ++ f :: post) = readProj nh (pre ++ post) := by
  induction pre with
  | nil =>
    cases hp : readProj nh post <;>
      simp [readProj, hf, hp, sempty_append]
  | cons g t ih =>
    cases hg : readProjItem nh g <;> simp [readProj, hg, ih]

theorem readPred_absorb (pre post : List Field) {f : Field}
    (hf : readPredItem f = "") :
    readPred (pre ++ f :: post) = readPred (pre ++ post) := by
  induction pre with
  | nil =>
    rw [List.nil_append, List.nil_append]
    simp only [readPred, hf, sempty_append]
  | cons g t ih =>
    rw [List.cons_append, List.cons_append]
    simp only [readPred, ih]

theorem readProjItemD_cases (nh : String) (f : Field) :
    readProjItemD nh f = "" ∨ ∃ y, readProjItemD nh f = y ++ ", " := by
  unfold readProjItemD
  split_ifs
  · right; exact ⟨_, rfl⟩
  · right; exact ⟨_, rfl⟩
  · left; rfl

theorem sjoin_ends {l : List String} (hne : sjoin l ≠ "")
    (h : ∀ x ∈ l, x = "" ∨ ∃ y, x = y ++ ", ") : ∃ J, sjoin l = J ++ ", " := by
  induction l with
  | nil => exact absurd rfl hne
  | cons x t ih =>
    by_cases ht : sjoin t = ""
    · rcases h x (List.mem_cons_self x t) with hx | ⟨y, hy⟩
      · rw [sjoin_cons, hx, sempty_append] at hne ⊢
        exact absurd ht hne
      · rw [sjoin_cons, ht, sappend_empty]
        exact ⟨y, hy⟩
    · rcases ih ht (fun z hz => h z (List.mem_cons_of_mem x hz)) with ⟨J, hJ⟩
      rw [sjoin_cons, hJ]
      exact ⟨x ++ J, (sappend_assoc x J ", ").symm⟩

theorem getDefault_vals (tn : String) :
    ((getDefault tn).getD "") = "0" ∨ ((getDefault tn).getD "") = "0.0"
      ∨ ((getDefault tn).getD "") = "''" ∨ ((getDefault tn).getD "") = "" := by
  unfold getDefault
  split_ifs <;> simp

theorem readProjItemD_noF {nh : String} {f : Field} (hnh : 'F' ∉ nh.data)
    (hf : safeName f.dbTag) : 'F' ∉ (readProjItemD nh f).data := by
  have htag : 'F' ∉ f.dbTag.data := safeName_not_mem hf (by decide)
  have hd : 'F' ∉ (((getDefault f.typeName).getD "")).data := by
    rcases getDefault_vals f.typeName with h | h | h | h <;> rw [h] <;> decide
  unfold readProjItemD
  split_ifs
  · exact not_mem_sappend (not_mem_sappend (not_mem_sappend (not_mem_sappend
      (not_mem_sappend (not_mem_sappend hnh htag) (by decide)) hd) (by decide)) htag)
      (by decide)
  · exact not_mem_sappend htag (by decide)
  · decide

theorem readPred_no_comma (fs : List Field) (hf : ∀ f ∈ fs, safeName f.dbTag) :
    ',' ∉ (readPred fs).data := by
  induction fs with
  | nil => exact List.not_mem_nil ','
  | cons f t ih =>
    have iht := ih (fun g hg => hf g (List.mem_cons_of_mem f hg))
    have hsafe := hf f (List.mem_cons_self f t)
    have hitem : ',' ∉ (readPredItem f).data := by
      unfold readPredItem
      split_ifs
      · exact not_mem_sappend (not_mem_sappend (not_mem_sappend (by decide)
          (safeName_not_mem hsafe (by decide))) (by decide))
          (safeName_not_mem hsafe (by decide))
      · exact not_mem_sappend (not_mem_sappend (not_mem_sappend (by decide)
          (safeName_not_mem hsafe (by decide))) (by decide))
          (safeName_not_mem hsafe (by decide))
      · decide
    rw [readPred, sdata_append]
    simp [hitem, iht]

theorem rf_passF {rep : List Char} {A B : List Char} (hF : 'F' ∉ A) :
    replaceFirstL [',', ' ', 'F', 'R', 'O', 'M'] rep (A ++ (',' :: B))
      = A ++ replaceFirstL [',', ' ', 'F', 'R', 'O', 'M'] rep (',' :: B) := by
  apply rf_pass
  intro s hs hsub
  rcases s with _ | ⟨c1, s1⟩
  · exact absurd rfl hs
  by_cases h1 : (',' : Char) = c1
  · rcases s1 with _ | ⟨c2, s2⟩
    · simp [startsWithL, h1]
    · by_cases h2 : (' ' : Char) = c2
      · rcases s2 with _ | ⟨c3, s3⟩
        · simp [startsWithL, h1, h2]
        · have hc3 : c3 ∈ A := by
            rcases hsub with ⟨u, hu⟩
            rw [hu]
            simp
          have hc3F : ('F' : Char) ≠ c3 := fun h3 => hF (h3 ▸ hc3)
          simp [startsWithL, h1, h2, hc3F]
      · simp [startsWithL, h2]
  · simp [startsWithL, h1]

/-- The projection prefix left before ` FROM` by BuildReadQuery's cleanup:
bare `SELECT` when no field contributes projection text, otherwise `SELECT `
followed by the item list with its trailing comma-space removed. -/
def selPartOf (nh : String) (fs : List Field) : String :=
  if sjoin (fs.map (readProjItemD nh)) = "" then "SELECT"
  else "SELECT " ++ ⟨(sjoin (fs.map (readProjItemD nh))).data.dropLast.dropLast⟩

/-- The projection prefix for a given driver configuration. -/
def readSelPart (driver : String) (r : Record) : String :=
  selPartOf (if driver = "pgsql" then "coalesce(" else "ifnull(") r.fields

/-- The core of BuildReadQuery's assembly: the `strings.Replace(s, ", FROM",
" FROM", 1)` cleanup turns the fields/`FROM` junction (or, with an empty
projection, nothing at all) into a single space, leaving the predicate
intact. -/
theorem read_replace_shape (nh t : String) (r : Record)
    (hnhF : 'F' ∉ nh.data)
    (ht : ',' ∉ t.data)
    (hf : ∀ f ∈ r.fields, safeName f.dbTag) :
    replaceFirstS ("SELECT " ++ sjoin (r.fields.map (readProjItemD nh))
        ++ "FROM " ++ t ++ " WHERE true" ++ readPred r.fields) ", FROM" " FROM"
      = selPartOf nh r.fields ++ " FROM " ++ t ++ " WHERE true" ++ readPred r.fields := by
  have hpat : ((", FROM") : String).data = [',', ' ', 'F', 'R', 'O', 'M'] := rfl
  have hrep : ((" FROM") : String).data = [' ', 'F', 'R', 'O', 'M'] := rfl
  have l1 : ("SELECT " : String).data = ['S', 'E', 'L', 'E', 'C', 'T', ' '] := rfl
  have l2 : ("SELECT" : String).data = ['S', 'E', 'L', 'E', 'C', 'T'] := rfl
  have l3 : ("FROM " : String).data = ['F', 'R', 'O', 'M', ' '] := rfl
  have l4 : ((" FROM ") : String).data = [' ', 'F', 'R', 'O', 'M', ' '] := rfl
  have l5 : ((", ") : String).data = [',', ' '] := rfl
  by_cases hit : sjoin (r.fields.map (readProjItemD nh)) = ""
  · unfold selPartOf
    rw [if_pos hit]
    unfold replaceFirstS
    apply sext
    show replaceFirstL ((", FROM") : String).data ((" FROM") : String).data _ = _
    rw [hpat]
    have hnc : ',' ∉ ("SELECT " ++ sjoin (r.fields.map (readProjItemD nh))
        ++ "FROM " ++ t ++ " WHERE true" ++ readPred r.fields).data := by
      rw [hit]
      exact not_mem_sappend (not_mem_sappend (not_mem_sappend (not_mem_sappend
        (not_mem_sappend (by decide) (by decide)) (by decide)) ht) (by decide))
        (readPred_no_comma r.fields hf)
    rw [rf_comma_space (okCS_of_not_mem hnc), hit]
    simp [sdata_append, l1, l2, l3, l4]
  · have hends : ∀ x ∈ r.fields.map (readProjItemD nh), x = "" ∨ ∃ y, x = y ++ ", " := by
      intro x hx
      rcases List.mem_map.mp hx with ⟨f, hfm, rfl⟩
      exact readProjItemD_cases nh f
    rcases sjoin_ends hit hends with ⟨J, hJ⟩
    unfold selPartOf
    rw [if_neg hit]
    have hdrop : (⟨(sjoin (r.fields.map (readProjItemD nh))).data.dropLast.dropLast⟩ : String)
        = J := by
      apply sext
      show (sjoin (r.fields.map (readProjItemD nh))).data.dropLast.dropLast = J.data
      rw [hJ, sdata_append]
      rw [(rfl : ((", ") : String).data = [',', ' '])]
      rw [show J.data ++ [',', ' '] = (J.data ++ [',']) ++ [' '] by simp,
        List.dropLast_concat, List.dropLast_concat]
    rw [hdrop]
    unfold replaceFirstS
    apply sext
    show replaceFirstL ((", FROM") : String).data ((" FROM") : String).data _ = _
    rw [hpat, hrep]
    have hJF : 'F' ∉ J.data := by
      intro hmem
      have hFitems : 'F' ∉ (sjoin (r.fields.map (readProjItemD nh))).data := by
        apply sjoin_not_mem
        intro x hx
        rcases List.mem_map.mp hx with ⟨f, hfm, rfl⟩
        exact readProjItemD_noF hnhF (hf f hfm)
      apply hFitems
      rw [hJ, sdata_append]
      exact List.mem_append_left _ hmem
    have hshape : ("SELECT " ++ sjoin (r.fields.map (readProjItemD nh))
        ++ "FROM " ++ t ++ " WHERE true" ++ readPred r.fields).data
        = (("SELECT " : String).data ++ J.data)
          ++ (',' :: (' ' :: 'F' :: 'R' :: 'O' :: 'M'
            :: (' ' :: (t.data ++ ((" WHERE true" : String).data
              ++ (readPred r.fields).data))))) := by
      rw [hJ]
      simp [sdata_append, l1, l3, l5]
    rw [hshape]
    have hA : 'F' ∉ (("SELECT " : String).data ++ J.data) := by
      intro hm
      rcases List.mem_append.mp hm with h | h
      · revert h; decide
      · exact hJF h
    rw [rf_passF hA]
    have hmatch : replaceFirstL [',', ' ', 'F', 'R', 'O', 'M'] [' ', 'F', 'R', 'O', 'M']
        (',' :: (' ' :: 'F' :: 'R' :: 'O' :: 'M'
          :: (' ' :: (t.data ++ ((" WHERE true" : String).data
            ++ (readPred r.fields).data)))))
        = [' ', 'F', 'R', 'O', 'M'] ++ (' ' :: (t.data ++ ((" WHERE true" : String).data
            ++ (readPred r.fields).data))) := by
      have h2 := rf_at_match [',', ' ', 'F', 'R', 'O', 'M'] [' ', 'F', 'R', 'O', 'M']
        (' ' :: (t.data ++ ((" WHERE true" : String).data ++ (readPred r.fields).data)))
      simpa using h2
    rw [hmatch]
    simp [sdata_append, l1, l4]

/-- BuildReadQuery's output in closed form: some projection prefix `sel`,
then ` FROM <table>`, then the predicate starting at `WHERE true`. -/
theorem read_master (driver t : String) (r : Record)
    (ht : ',' ∉ t.data)
    (hf : ∀ f ∈ r.fields, safeName f.dbTag)
    (hdef : ∀ f ∈ r.fields, f.nullableTag ≠ "" → (getDefault f.typeName).isSome) :
    BuildReadQuery driver t r
      = some (readSelPart driver r ++ " FROM " ++ t ++ " WHERE true" ++ readPred r.fields) := by
  have hnhF : 'F' ∉ ((if driver = "pgsql" then "coalesce(" else "ifnull(" : String)).data := by
    split_ifs <;> decide
  have hsel := read_replace_shape (if driver = "pgsql" then ("coalesce(" : String) else "ifnull(")
    t r hnhF ht hf
  simp only [BuildReadQuery, readProj_eq_some _ _ hdef]
  rw [hsel]
  rfl

/-! ### Concrete records used by the claim checks -/

/-- A primary-key field `ID int32 = 7`, column `id`. -/
def fID : Field := ⟨"ID", "id", "y", "", .intV "int32" 7⟩

/-- A plain string field `Name = "bob"`, column `name`. -/
def fName : Field := ⟨"Name", "name", "", "", .stringV "bob"⟩

/-- A two-field record with a primary key and one maskable column. -/
def recPkName : Record := ⟨[fID, fName]⟩

/-- An `IsActive` field that carries no `db` tag at all. -/
def fIsActiveNoCol : Field := ⟨"IsActive", "", "", "", .intV "int32" 0⟩

/-- An `IsActive` field with column `is_active`. -/
def fIsActive : Field := ⟨"IsActive", "is_active", "", "", .intV "int32" 0⟩

/-- A record whose `IsActive` field has an empty column name. -/
def recActiveNoCol : Record := ⟨[fIsActiveNoCol, ⟨"ID", "id", "y", "", .intV "int32" 5⟩]⟩

/-- A record with a tagged active flag and a primary key. -/
def recActive : Record := ⟨[fIsActive, ⟨"ID", "id", "y", "", .intV "int32" 5⟩]⟩

/-- A record with a primary key only. -/
def recPkOnly : Record := ⟨[⟨"ID", "id", "y", "", .intV "int32" 5⟩]⟩

/-! ### Claim C1 -/

/-- Claim C1 (code bug): the spec requires `UPDATE <table> SET <set-clauses>
WHERE <pk>` with the trailing comma removed, but the SET clauses are written
as `<col> = :<col>,` with no space, while the cleanup replaces the
comma-space pattern `", WHERE"`; it therefore never fires and a comma
immediately precedes WHERE in the generated text.  Evaluation at the failing
input shows the comma. -/
theorem c1_trailing_comma_not_cleaned :
    BuildUpdateQuery "tasks" recPkName ["Name"]
      = "UPDATE tasks SET name = :name,WHERE id = :id"
    ∧ BuildUpdateQuery "tasks" recPkName ["Name"]
      ≠ "UPDATE tasks SET name = :name WHERE id = :id" := by
  constructor
  · decide
  · decide

/-! ### Claim C2 -/

/-- Claim C2 counterexample: a record whose `IsActive` field has an *empty*
column name still takes the soft-delete UPDATE branch (the code never checks
the `db` tag before branching), while the claim requires a `DELETE FROM`
statement for such a record. -/
theorem c2_cex_isactive_without_column_still_update :
    BuildDeleteQuery "t" recActiveNoCol = "UPDATE t SET  = : WHERE id = :id"
    ∧ BuildDeleteQuery "t" recActiveNoCol ≠ "DELETE FROM t WHERE id = :id" := by
  constructor
  · decide
  · decide

/-- Claim C2 as amended: BuildDeleteQuery produces a soft-delete UPDATE
statement if and only if the record has a field whose Go identifier is
`IsActive` — regardless of whether that field carries a non-empty column
name; records without such a field produce `DELETE FROM <table> WHERE
<pk-clause>`, and when the field exists the UPDATE sets that field's
(possibly empty) column. -/
theorem c2_soft_delete_iff_isactive (t : String) (r : Record) :
    (startsWithL ("UPDATE " : String).data (BuildDeleteQuery t r).data = true
      ↔ ∃ f ∈ r.fields, f.name = "IsActive")
    ∧ ((∀ f ∈ r.fields, f.name ≠ "IsActive")
        → BuildDeleteQuery t r = "DELETE FROM " ++ t ++ " WHERE " ++ firstPkClause r.fields)
    ∧ (∀ f, r.fields.find? (fun g => g.name = "IsActive") = some f
        → BuildDeleteQuery t r
          = "UPDATE " ++ t ++ " SET " ++ f.dbTag ++ " = :" ++ f.dbTag ++ " WHERE "
            ++ firstPkClause r.fields) := by
  cases hfind : r.fields.find? (fun g => g.name = "IsActive") with
  | none =>
    have hhard : BuildDeleteQuery t r
        = "DELETE FROM " ++ (t ++ (" WHERE " ++ firstPkClause r.fields)) := by
      unfold BuildDeleteQuery
      rw [hfind]
      apply sext
      simp [sdata_append]
    refine ⟨?_, ?_, ?_⟩
    · constructor
      · intro hsw
        exfalso
        rw [hhard] at hsw
        rw [show ("DELETE FROM " ++ (t ++ (" WHERE " ++ firstPkClause r.fields))).data
            = 'D' :: (("ELETE FROM " : String).data
              ++ (t ++ (" WHERE " ++ firstPkClause r.fields)).data) from by
          rw [sdata_append, (rfl : ("DELETE FROM " : String).data
            = 'D' :: ("ELETE FROM " : String).data), List.cons_append]] at hsw
        rw [(rfl : ("UPDATE " : String).data = 'U' :: ("PDATE " : String).data),
          startsWithL_cons_ne _ _ (by decide)] at hsw
        exact Bool.false_ne_true hsw
      · rintro ⟨f, hf, hname⟩
        have h2 := List.find?_eq_none.mp hfind f hf
        simp [hname] at h2
    · intro _
      unfold BuildDeleteQuery
      rw [hfind]
    · intro f hf2
      exact Option.noConfusion hf2
  | some f0 =>
    have hsoft : ∀ f, (some f0 = some f)
        → BuildDeleteQuery t r
          = "UPDATE " ++ t ++ " SET " ++ f.dbTag ++ " = :" ++ f.dbTag ++ " WHERE "
            ++ firstPkClause r.fields := by
      intro f hf2
      injection hf2 with hf3
      subst hf3
      unfold BuildDeleteQuery
      rw [hfind]
    refine ⟨?_, ?_, fun f hf2 => hsoft f hf2⟩
    · constructor
      · intro _
        exact ⟨f0, List.mem_of_find?_eq_some hfind, by simpa using List.find?_some hfind⟩
      · intro _
        have heq : BuildDeleteQuery t r
            = "UPDATE " ++ (t ++ (" SET " ++ (f0.dbTag ++ (" = :" ++ (f0.dbTag
              ++ (" WHERE " ++ firstPkClause r.fields)))))) := by
          unfold BuildDeleteQuery
          rw [hfind]
          apply sext
          simp [sdata_append]
        rw [heq, sdata_append]
        exact startsWithL_append_self _ _
    · intro hall
      exact absurd (by simpa using List.find?_some hfind)
        (hall f0 (List.mem_of_find?_eq_some hfind))

/-- Claim C2 witness: the amended theorem applied to a record with a tagged
active flag (soft delete) and to one without any `IsActive` field (hard
delete). -/
theorem c2_witness :
    BuildDeleteQuery "t" recActive = "UPDATE t SET is_active = :is_active WHERE id = :id"
    ∧ BuildDeleteQuery "t" recPkOnly = "DELETE FROM t WHERE id = :id" := by
  constructor
  · have h := (c2_soft_delete_iff_isactive "t" recActive).2.2 fIsActive (by decide)
    exact h.trans (by decide)
  · have h := (c2_soft_delete_iff_isactive "t" recPkOnly).2.1 (by decide)
    exact h.trans (by decide)

/-! ### Claim C3 -/

theorem firstPkClause_invariant {f : Field} (hpk : f.isPrimaryKey)
    (pre post post2 : List Field) :
    firstPkClause (pre ++ f :: post) = firstPkClause (pre ++ f :: post2) := by
  induction pre with
  | nil => simp [firstPkClause, hpk]
  | cons g tpre ih =>
    by_cases hg : g.isPrimaryKey
    · simp [firstPkClause, hg]
    · simp only [List.cons_append, firstPkClause, if_neg hg]
      exact ih

theorem firstPkClause_first {f : Field} (hpk : f.isPrimaryKey)
    (pre post : List Field) (hpre : ∀ g ∈ pre, ¬ g.isPrimaryKey) :
    firstPkClause (pre ++ f :: post) = f.dbTag ++ " = :" ++ f.dbTag := by
  induction pre with
  | nil => simp [firstPkClause, hpk]
  | cons g tpre ih =>
    have hg := hpre g (List.mem_cons_self g tpre)
    simp only [List.cons_append, firstPkClause, if_neg hg]
    exact ih (fun x hx => hpre x (List.mem_cons_of_mem g hx))

/-- A primary-key field `A`, column `a`. -/
def fPkA : Field := ⟨"A", "a", "y", "", .intV "int32" 1⟩

/-- A second primary-key field `B`, column `b`. -/
def fPkB : Field := ⟨"B", "b", "y", "", .intV "int32" 2⟩

/-- A record with two primary-key-tagged fields. -/
def recTwoPk : Record := ⟨[fPkA, fPkB]⟩

/-- The same record truncated after its first primary-key field. -/
def recOnePk : Record := ⟨[fPkA]⟩

/-- Claim C3 counterexample: with two primary-key-tagged fields,
BuildUpdateQuery emits a `WHERE` clause for *both* — the claim says the
second is ignored, which would give the output of the one-key record. -/
theorem c3_cex_update_uses_both_pks :
    BuildUpdateQuery "t" recTwoPk [] = "UPDATE t SET WHERE a = :aWHERE b = :b"
    ∧ BuildUpdateQuery "t" recTwoPk [] ≠ BuildUpdateQuery "t" recOnePk []
    ∧ BuildUpdateQuery "t" recOnePk [] = "UPDATE t SET WHERE a = :a" := by
  refine ⟨by decide, by decide, by decide⟩

/-- Claim C3 as amended: BuildDeleteQuery uses only the first
primary-key-tagged field in declaration order (fields after it never change
its output, and its WHERE clause is that field's), but BuildUpdateQuery
does not ignore later primary-key fields: every primary-key-tagged field
with a non-empty column name contributes its own `WHERE <col> = :<col>`
clause, concatenated in declaration order. -/
theorem c3_first_pk_delete_but_not_update :
    (∀ (t : String) (pre : List Field) (f : Field) (post post2 : List Field),
        f.isPrimaryKey
        → (∀ g ∈ post, g.name ≠ "IsActive") → (∀ g ∈ post2, g.name ≠ "IsActive")
        → BuildDeleteQuery t ⟨pre ++ f :: post⟩ = BuildDeleteQuery t ⟨pre ++ f :: post2⟩)
    ∧ (∀ (pre : List Field) (f : Field) (post : List Field),
        f.isPrimaryKey → (∀ g ∈ pre, ¬ g.isPrimaryKey)
        → firstPkClause (pre ++ f :: post) = f.dbTag ++ " = :" ++ f.dbTag)
    ∧ (∀ fs : List Field,
        updWhere fs = sjoin ((fs.filter (fun f => decide (updPkIncl f))).map
          (fun f => "WHERE " ++ f.dbTag ++ " = :" ++ f.dbTag))) := by
  refine ⟨?_, fun pre f post hpk hpre => firstPkClause_first hpk pre post hpre,
    fun fs => updWhere_eq fs⟩
  intro t pre f post post2 hpk hp1 hp2
  have hfind : (pre ++ f :: post).find? (fun g => g.name = "IsActive")
      = (pre ++ f :: post2).find? (fun g => g.name = "IsActive") := by
    rw [List.find?_append, List.find?_append]
    congr 1
    by_cases hfa : f.name = "IsActive"
    · rw [List.find?_cons_of_pos _ (by simp [hfa]), List.find?_cons_of_pos _ (by simp [hfa])]
    · rw [List.find?_cons_of_neg _ (by simp [hfa]), List.find?_cons_of_neg _ (by simp [hfa])]
      rw [List.find?_eq_none.mpr (fun x hx => by simp [hp1 x hx]),
        List.find?_eq_none.mpr (fun x hx => by simp [hp2 x hx])]
  unfold BuildDeleteQuery
  rw [hfind, firstPkClause_invariant hpk pre post post2]

/-- Claim C3 witness: the amended theorem applied to concrete records —
delete output unchanged by a field after the key, the first key's clause,
and the update predicate over a two-key record. -/
theorem c3_witness :
    BuildDeleteQuery "t" ⟨[] ++ fPkA :: [fPkB]⟩ = BuildDeleteQuery "t" ⟨[] ++ fPkA :: []⟩
    ∧ firstPkClause ([] ++ fPkA :: [fPkB]) = "a" ++ " = :" ++ "a"
    ∧ updWhere [fPkA, fPkB] = sjoin (([fPkA, fPkB].filter
        (fun f => decide (updPkIncl f))).map
        (fun f => "WHERE " ++ f.dbTag ++ " = :" ++ f.dbTag)) := by
  refine ⟨c3_first_pk_delete_but_not_update.1 "t" [] fPkA [fPkB] [] (by decide) (by decide)
    (by decide), ?_, c3_first_pk_delete_but_not_update.2.2 [fPkA, fPkB]⟩
  have h := c3_first_pk_delete_but_not_update.2.1 [] fPkA [fPkB] (by decide) (by decide)
  exact h.trans (by decide)

/-! ### Claim C8 -/

/-- Claim C8 counterexample: `int64` is one of the source's own integer
type names (see `getDefault`), yet an `int64` value equal to 0 is classified
as non-default — the classifier only recognizes the exact name "int32" — so
the zero `int64` column is *not* elided from Create's column list. -/
theorem c8_cex_int64_zero_not_elided :
    "int64" ∈ integerTypeNames
    ∧ notDefault (GoValue.intV "int64" 0) = true
    ∧ notDefault (GoValue.intV "int32" 0) = false
    ∧ BuildCreateQuery "t" ⟨[⟨"N", "n", "", "", .intV "int64" 0⟩]⟩
        = "INSERT INTO t (n) VALUES (:n)" := by
  refine ⟨by decide, by decide, by decide, by decide⟩

/-- Claim C8 as amended: the zero-value test recognizes exactly the type
names "int32" (zero iff the value is 0), "float64" (zero iff the value is
0.0) and "string" (zero iff empty); a value of every other type name —
including every other integer or float kind — is always treated as
non-default. -/
theorem c8_zero_test_exact_names (v : GoValue) :
    notDefault v = false
      ↔ (v = .intV "int32" 0 ∨ v = .floatV "float64" 0 ∨ v = .stringV "") := by
  cases v with
  | intV tn n =>
    by_cases htn : tn = "int32"
    · subst htn
      by_cases hn : n = 0 <;> simp [notDefault, hn]
    · simp [notDefault, htn]
  | floatV tn q =>
    by_cases htn : tn = "float64"
    · subst htn
      by_cases hq : q = 0 <;> simp [notDefault, hq]
    · simp [notDefault, htn]
  | stringV s => by_cases hs : s = "" <;> simp [notDefault, hs]
  | boolV b => simp [notDefault]
  | otherV tn => simp [notDefault]

/-- Claim C8 witness: the amended classification evaluated at the zero
int32 value. -/
theorem c8_witness : notDefault (GoValue.intV "int32" 0) = false :=
  (c8_zero_test_exact_names (GoValue.intV "int32" 0)).mpr (Or.inl rfl)

/-! ### Claim C9 -/

/-- Claim C9: `getDefault` yields the literal "0" for every integer and the
boolean type name, "0.0" for the float type names, "''" for "string", and
for any other type name it panics — modelled as `none` — which aborts
BuildReadQuery entirely (no output, no normal error result) whenever a
nullable field has such a type. -/
theorem c9_null_default_literals :
    (∀ tn ∈ integerTypeNames, getDefault tn = some "0")
    ∧ getDefault "bool" = some "0"
    ∧ getDefault "float32" = some "0.0"
    ∧ getDefault "float64" = some "0.0"
    ∧ getDefault "string" = some "''"
    ∧ (∀ tn, tn ∉ integerTypeNames → tn ≠ "float32" → tn ≠ "float64" → tn ≠ "bool"
        → tn ≠ "string" → getDefault tn = none)
    ∧ (∀ (driver t : String) (r : Record) (f : Field), f ∈ r.fields → f.nullableTag ≠ ""
        → getDefault f.typeName = none → BuildReadQuery driver t r = none) := by
  refine ⟨by decide, by decide, by decide, by decide, by decide, ?_, ?_⟩
  · intro tn h1 h2 h3 h4 h5
    simp [getDefault, h1, h2, h3, h4, h5]
  · intro driver t r f hmem hnul hdefn
    have hitem : readProjItem (if driver = "pgsql" then ("coalesce(" : String) else "ifnull(") f
        = none := by
      simp [readProjItem, hnul, hdefn]
    simp only [BuildReadQuery]
    rw [readProj_none hmem hitem]

/-- Claim C9 witness: an unlisted type name gets no default literal, and a
record with a nullable field of that type aborts the read builder. -/
theorem c9_witness :
    getDefault "MyStruct" = none
    ∧ BuildReadQuery "x" "t" ⟨[⟨"Obj", "obj", "", "y", .otherV "MyStruct"⟩]⟩ = none := by
  constructor
  · exact c9_null_default_literals.2.2.2.2.2.1 "MyStruct" (by decide) (by decide) (by decide)
      (by decide) (by decide)
  · exact c9_null_default_literals.2.2.2.2.2.2 "x" "t"
      ⟨[⟨"Obj", "obj", "", "y", .otherV "MyStruct"⟩]⟩ ⟨"Obj", "obj", "", "y", .otherV "MyStruct"⟩
      (by decide) (by decide) (by decide)

/-! ### Claim C4 -/

/-- A nullable string field with no column name at all. -/
def fNullNoCol : Field := ⟨"Note", "", "", "y", .stringV ""⟩

/-- A nullable string field named `name` holding "jo". -/
def fNameNullable : Field := ⟨"Name", "name", "", "y", .stringV "jo"⟩

/-- A one-field record for the read-builder checks. -/
def recNameNullable : Record := ⟨[fNameNullable]⟩

/-- A record with a primary key and a maskable field left at its zero
value. -/
def recMaskZero : Record := ⟨[fID, ⟨"Name", "name", "", "", .stringV ""⟩]⟩

/-- Claim C4 counterexample: a nullable-tagged field with an *empty* column
name is not omitted — it contributes `ifnull(, '') as ` to the projection
(the nullable branch never checks the column name), so the generated SQL
differs from the record without that field. -/
theorem c4_cex_nullable_empty_column_emits_text :
    BuildReadQuery "x" "t" ⟨[fNullNoCol]⟩
      = some "SELECT ifnull(, '') as  FROM t WHERE true"
    ∧ BuildReadQuery "x" "t" ⟨[fNullNoCol]⟩ ≠ BuildReadQuery "x" "t" ⟨[]⟩ := by
  constructor
  · decide
  · decide

/-- Claim C4 as amended: a nullable-tagged field is always emitted in the
null-coalescing form `<nullFn>(<col>, <default>) as <col>` — even when its
column name is empty; a non-nullable field with a non-empty column name is
emitted as the bare column name; and only a *non-nullable* field with an
empty column name contributes no text at all to the generated SQL. -/
theorem c4_projection_rules :
    (∀ (nh : String) (f : Field), f.nullableTag ≠ ""
        → readProjItem nh f = (getDefault f.typeName).map (fun d =>
            nh ++ f.dbTag ++ ", " ++ d ++ ") as " ++ f.dbTag ++ ", "))
    ∧ (∀ (nh : String) (f : Field), f.nullableTag = "" → f.dbTag ≠ ""
        → readProjItem nh f = some (f.dbTag ++ ", "))
    ∧ (∀ (driver t : String) (pre post : List Field) (f : Field),
        f.nullableTag = "" → f.dbTag = ""
        → BuildReadQuery driver t ⟨pre ++ f :: post⟩
          = BuildReadQuery driver t ⟨pre ++ post⟩) := by
  refine ⟨?_, ?_, ?_⟩
  · intro nh f h
    simp [readProjItem, h]
  · intro nh f h1 h2
    simp [readProjItem, h1, h2]
  · intro driver t pre post f h1 h2
    have hitem : ∀ nh : String, readProjItem nh f = some "" := by
      intro nh
      simp [readProjItem, h1, h2]
    have hpred : readPredItem f = "" := by
      simp [readPredItem, readPredIncl, h2]
    simp only [BuildReadQuery]
    rw [readProj_absorb pre post (hitem _), readPred_absorb pre post hpred]

/-- Claim C4 witness: the three amended projection rules at concrete
fields and records. -/
theorem c4_witness :
    readProjItem "ifnull(" fNameNullable = some "ifnull(name, '') as name, "
    ∧ readProjItem "ifnull(" fName = some "name, "
    ∧ BuildReadQuery "x" "t" ⟨[] ++ ⟨"Hidden", "", "", "", .stringV "zz"⟩ :: []⟩
      = BuildReadQuery "x" "t" ⟨[] ++ []⟩ := by
  refine ⟨?_, ?_, ?_⟩
  · have h := c4_projection_rules.1 "ifnull(" fNameNullable (by decide)
    exact h.trans (by decide)
  · have h := c4_projection_rules.2.1 "ifnull(" fName (by decide) (by decide)
    exact h.trans (by decide)
  · exact c4_projection_rules.2.2 "x" "t" [] [] ⟨"Hidden", "", "", "", .stringV "zz"⟩
      (by decide) (by decide)

/-! ### Claim C5 -/

/-- Claim C5: BuildCreateQuery includes a field in the column list and the
placeholder list exactly when its value is non-default, it has a non-empty
column name, and it is not primary-key-tagged; the two lists enumerate the
same filtered fields in the same order, the placeholder in position i being
the column in position i prefixed with a colon. -/
theorem c5_create_inclusion (t : String) (r : Record)
    (ht : '(' ∉ t.data) (hf : ∀ f ∈ r.fields, safeName f.dbTag) :
    BuildCreateQuery t r
      = "INSERT INTO " ++ t ++ " ("
        ++ sepList ((r.fields.filter (fun f => decide (createIncl f))).map (fun f => f.dbTag))
        ++ ") VALUES ("
        ++ sepList ((r.fields.filter (fun f => decide (createIncl f))).map
            (fun f => ":" ++ f.dbTag))
        ++ ")" :=
  create_master t r ht hf

/-- Claim C5 witness: the closed form evaluated at a concrete record whose
primary key is excluded and whose set field is included. -/
theorem c5_witness :
    BuildCreateQuery "w" recPkName = "INSERT INTO w (name) VALUES (:name)" := by
  have h := c5_create_inclusion "w" recPkName (by decide) (by decide)
  exact h.trans (by decide)

/-! ### Claim C6 -/

/-- Claim C6: BuildReadQuery's predicate begins with the tautological
`WHERE true`; a field contributes an AND-joined filter exactly when it has
a non-empty column name and a non-default value, with `LIKE` for
string-kind fields and equality for every other kind. -/
theorem c6_where_true_and_filters (driver t : String) (r : Record)
    (ht : ',' ∉ t.data)
    (hf : ∀ f ∈ r.fields, safeName f.dbTag)
    (hdef : ∀ f ∈ r.fields, f.nullableTag ≠ "" → (getDefault f.typeName).isSome) :
    BuildReadQuery driver t r
      = some (readSelPart driver r ++ " FROM " ++ t ++ " WHERE true"
        ++ sjoin ((r.fields.filter (fun f => decide (readPredIncl f))).map
          (fun f => " AND " ++ f.dbTag
            ++ (if f.typeName = "string" then " LIKE :" else " = :") ++ f.dbTag))) := by
  rw [read_master driver t r ht hf hdef, readPred_eq]

/-- Claim C6 witness: the closed form at a concrete record, together with
its literal evaluation showing the `WHERE true` base and the LIKE filter. -/
theorem c6_witness :
    BuildReadQuery "" "t" recNameNullable
      = some (readSelPart "" recNameNullable ++ " FROM " ++ "t" ++ " WHERE true"
        ++ sjoin ((recNameNullable.fields.filter (fun f => decide (readPredIncl f))).map
          (fun f => " AND " ++ f.dbTag
            ++ (if f.typeName = "string" then " LIKE :" else " = :") ++ f.dbTag)))
    ∧ BuildReadQuery "" "t" recNameNullable
      = some "SELECT ifnull(name, '') as name FROM t WHERE true AND name LIKE :name" := by
  constructor
  · exact c6_where_true_and_filters "" "t" recNameNullable (by decide) (by decide) (by decide)
  · decide

/-! ### Claim C7 -/

/-- Claim C7: a field's SET clause appears in BuildUpdateQuery's output
exactly when its Go field identifier is in the mask, it has a non-empty
column name, and it is not primary-key-tagged; the field's current value
plays no part (the closed form never consults it). -/
theorem c7_mask_gated_update (t : String) (r : Record) (mask : List String)
    (ht : ',' ∉ t.data) (hf : ∀ f ∈ r.fields, safeName f.dbTag) :
    BuildUpdateQuery t r mask
      = "UPDATE " ++ t ++ " SET "
        ++ sjoin ((r.fields.filter (fun f => decide (updSetIncl mask f))).map
            (fun f => f.dbTag ++ " = :" ++ f.dbTag ++ ","))
        ++ sjoin ((r.fields.filter (fun f => decide (updPkIncl f))).map
            (fun f => "WHERE " ++ f.dbTag ++ " = :" ++ f.dbTag)) := by
  rw [upd_master t r mask ht hf, updSet_eq, updWhere_eq]

/-- Claim C7 witness: the mask-gated closed form at a concrete record,
with its literal evaluation: the zero-valued masked field still appears. -/
theorem c7_witness :
    BuildUpdateQuery "t" recMaskZero ["Name"]
      = "UPDATE t SET name = :name,WHERE id = :id" := by
  have h := c7_mask_gated_update "t" recMaskZero ["Name"] (by decide) (by decide)
  exact h.trans (by decide)

/-! ### Claim C10 -/

/-- Claim C10: when a record's only tagged field is a primary-key column
and the mask selects nothing, BuildUpdateQuery still hands the resolver the
degenerate text `UPDATE <table> SET WHERE <pk> = :<pk>` — an empty SET list
is not detected or reported. -/
theorem c10_empty_mask_keeps_degenerate_sql (t : String) (r : Record) (pk : Field)
    (mask : List String)
    (hfilter : r.fields.filter (fun f => decide (f.dbTag ≠ "")) = [pk])
    (hpk : pk.isPrimaryKey)
    (hmask : ∀ f ∈ r.fields, ¬ mask.contains f.name)
    (ht : ',' ∉ t.data) (hsafe : safeName pk.dbTag) :
    BuildUpdateQuery t r mask
      = "UPDATE " ++ t ++ " SET WHERE " ++ pk.dbTag ++ " = :" ++ pk.dbTag := by
  have hf : ∀ f ∈ r.fields, safeName f.dbTag := by
    intro f hfm
    by_cases hdb : f.dbTag = ""
    · rw [hdb]
      intro c hc
      exact absurd hc (List.not_mem_nil c)
    · have hmem : f ∈ r.fields.filter (fun g => decide (g.dbTag ≠ "")) :=
        List.mem_filter.mpr ⟨hfm, by simp [hdb]⟩
      rw [hfilter] at hmem
      have hfp := List.mem_singleton.mp hmem
      rw [hfp]
      exact hsafe
  rw [upd_master t r mask ht hf, updSet_eq, updWhere_eq]
  have hset : r.fields.filter (fun f => decide (updSetIncl mask f)) = [] := by
    rw [List.filter_eq_nil_iff]
    intro f hfm
    simp only [updSetIncl, decide_eq_true_eq]
    rintro ⟨h1, h2, h3⟩
    exact hmask f hfm h3
  have hwh : r.fields.filter (fun f => decide (updPkIncl f)) = [pk] := by
    have hcong : r.fields.filter (fun f => decide (updPkIncl f))
        = r.fields.filter (fun f => decide (f.isPrimaryKey = true) && decide (f.dbTag ≠ "")) := by
      apply List.filter_congr
      intro f hfm
      by_cases h1 : f.dbTag = "" <;> by_cases h2 : f.isPrimaryKey <;>
        simp [updPkIncl, h1, h2]
    rw [hcong, ← List.filter_filter, hfilter]
    simp [hpk]
  rw [hset, hwh]
  apply sext
  have l0 : (("") : String).data = [] := rfl
  have l1 : ((" SET ") : String).data = [' ', 'S', 'E', 'T', ' '] := rfl
  have l2 : ((" SET WHERE ") : String).data
      = [' ', 'S', 'E', 'T', ' ', 'W', 'H', 'E', 'R', 'E', ' '] := rfl
  have l3 : (("WHERE ") : String).data = ['W', 'H', 'E', 'R', 'E', ' '] := rfl
  simp [sjoin, sdata_append, l0, l1, l2, l3]

/-- Claim C10 witness: the degenerate statement at a one-key record with an
empty mask. -/
theorem c10_witness :
    BuildUpdateQuery "t" recPkOnly [] = "UPDATE t SET WHERE id = :id" := by
  have h := c10_empty_mask_keeps_degenerate_sql "t" recPkOnly
    ⟨"ID", "id", "y", "", .intV "int32" 5⟩ [] (by decide) (by decide) (by decide) (by decide)
    (by decide)
  exact h.trans (by decide)

end Pbsql
